import Mathlib

/-
Verification of the Old World League Elo tracker core
(src/elo_tracker.py) against its natural-language specification.

The Python source is shallowly embedded below.  Conventions:
* pure float arithmetic of the rating model is modelled over the real
  numbers (expected_score, update_elo);
* the shared mutable store (players, matches, attendance rows) is a
  LeagueState record, and every request handler is a pure function from
  a state to an outcome paired with the next state;
* stored ratings are modelled as rationals, which supports the only
  operation the ledger and pairing code performs on them (comparison);
  the result handler therefore takes the Elo updater as an explicit
  parameter, and the ideal-real updater is update_elo above;
* database rows keep the field names of the SQLModel classes.
-/

namespace OWL

/-! ### Rating model (src lines 135-140) -/

/-- Embeds expected_score (line 135): 1.0 / (1.0 + 10 ** ((ro - rp) / 400.0)). -/
noncomputable def expected_score (rp ro : ℝ) : ℝ :=
  1 / (1 + (10 : ℝ) ^ ((ro - rp) / 400))

/-- Embeds update_elo (lines 138-140): both sides use their own expected score. -/
noncomputable def update_elo (r_a r_b score_a : ℝ) (k : ℕ) : ℝ × ℝ :=
  let e_a := expected_score r_a r_b
  let e_b := expected_score r_b r_a
  (r_a + k * (score_a - e_a), r_b + k * ((1 - score_a) - e_b))

/-- Written from the words of the spec (section 4.1): the standard logistic curve
with scale 400, for comparison with the embedded expected_score. -/
noncomputable def computeExpectedScore (ratingSelf ratingOpponent : ℝ) : ℝ :=
  1 / (1 + (10 : ℝ) ^ ((ratingOpponent - ratingSelf) / 400))

/-- Written from the words of the spec (section 4.1): new rating = old rating +
k * (actual - expected), each side with its own expected score. -/
noncomputable def applyMatchResult (ratingA ratingB scoreA : ℝ) (k : ℕ) : ℝ × ℝ :=
  (ratingA + k * (scoreA - computeExpectedScore ratingA ratingB),
   ratingB + k * ((1 - scoreA) - computeExpectedScore ratingB ratingA))

/-! ### Data model (src lines 38-78) -/

/-- Embeds the Player row (lines 38-46); created_at is irrelevant to every claim
and is omitted.  Ratings are floats in the source, modelled as rationals. -/
structure Player where
  id : ℕ
  name : String
  rating : ℚ
  active : Bool
  faction : Option String
deriving DecidableEq

/-- Embeds the Match row (lines 48-63); reported_at is modelled as an abstract
tick (the handler receives the current tick as an argument). -/
structure Match where
  id : ℕ
  week : String
  player_a_id : ℕ
  player_b_id : Option ℕ := none
  result : String := "pending"
  a_rating_before : Option ℚ := none
  b_rating_before : Option ℚ := none
  a_rating_after : Option ℚ := none
  b_rating_after : Option ℚ := none
  reported_at : Option ℕ := none
  k_factor_used : Option ℕ := none
  a_faction : Option String := none
  b_faction : Option String := none
deriving DecidableEq

/-- Embeds the Attendance row (lines 65-71). -/
structure Attendance where
  week : String
  player_id : ℕ
  present : Bool
deriving DecidableEq

/-- The shared mutable store of section 5: one league database.  nextId models
the primary-key assignment for newly inserted matches. -/
structure LeagueState where
  players : List Player
  matches' : List Match
  attendance : List Attendance
  nextId : ℕ
deriving DecidableEq

/-! ### Past-pairs index (src lines 209-214) -/

/-- tuple(sorted([a, b])): the unordered key of a pair of player ids. -/
def pairKey (a b : ℕ) : ℕ × ℕ := (min a b, max a b)

/-- Embeds fetch_past_pairs (lines 209-214): the unordered id pair of every
non-bye match.  The source collects a set; a list with the same members is
used here (only membership and emptiness are ever consulted). -/
def fetch_past_pairs (ms : List Match) : List (ℕ × ℕ) :=
  ms.filterMap fun m =>
    match m.player_b_id with
    | none => none
    | some b => some (pairKey m.player_a_id b)

/-! ### Pairing engine (src lines 216-245) -/

/-- The inner scan of lines 229-233: first later candidate that is unconsumed
and whose pair with pid is not in the past-pairs index. -/
def findFresh (past : List (ℕ × ℕ)) (used : List ℕ) (pid : ℕ) : List ℕ → Option ℕ
  | [] => none
  | c :: cs =>
    if c ∈ used then findFresh past used pid cs
    else if pairKey pid c ∈ past then findFresh past used pid cs
    else some c

/-- The fallback scan of lines 234-238: first unconsumed later candidate. -/
def findAny (used : List ℕ) : List ℕ → Option ℕ
  | [] => none
  | c :: cs => if c ∈ used then findAny used cs else some c

/-- The greedy left-to-right pass of lines 224-240 over the rating-sorted id
list, carrying the set of consumed ids. -/
def pairingLoop (past : List (ℕ × ℕ)) : List ℕ → List ℕ → List (ℕ × Option ℕ)
  | [], _ => []
  | pid :: rest, used =>
    if pid ∈ used then pairingLoop past rest used
    else
      match findFresh past used pid rest with
      | some opp => (pid, some opp) :: pairingLoop past rest (pid :: opp :: used)
      | none =>
        match findAny used rest with
        | some opp => (pid, some opp) :: pairingLoop past rest (pid :: opp :: used)
        | none => (pid, none) :: pairingLoop past rest (pid :: used)

/-- rating descending, the sort key of the query on line 220. -/
def ratingGE (p q : Player) : Prop := q.rating ≤ p.rating

instance : DecidableRel ratingGE := fun p q => inferInstanceAs (Decidable (q.rating ≤ p.rating))

/-- Lines 220-222: ids of active players ordered by rating descending, then
filtered by the attendance restriction.  restrict_to is None or a set of ids;
the source tests it for truthiness, so an empty set imposes no restriction. -/
def eligible_ids (players : List Player) (restrict_to : Option (List ℕ)) : List ℕ :=
  let ids := (List.insertionSort ratingGE (players.filter (·.active))).map Player.id
  match restrict_to with
  | none => ids
  | some r => if r.isEmpty then ids else ids.filter fun i => decide (i ∈ r)

/-- Embeds generate_weekly_pairings (lines 216-245) up to persistence: the
list of (player_a, player_b or bye) pairs for a given eligible pool and
past-pairs index.  Row creation is generatePairings below. -/
def generate_weekly_pairings (players : List Player) (restrict_to : Option (List ℕ))
    (past : List (ℕ × ℕ)) : List (ℕ × Option ℕ) :=
  let ids := eligible_ids players restrict_to
  if ids.isEmpty then [] else pairingLoop past ids []

/-- All player ids mentioned by a pairing output, in order. -/
def playersOf : List (ℕ × Option ℕ) → List ℕ
  | [] => []
  | (a, none) :: rest => a :: playersOf rest
  | (a, some b) :: rest => a :: b :: playersOf rest

/-- Number of byes in a pairing output. -/
def byeCount : List (ℕ × Option ℕ) → ℕ
  | [] => 0
  | (_, none) :: rest => byeCount rest + 1
  | (_, some _) :: rest => byeCount rest

/-- Number of two-sided pairs in a pairing output. -/
def twoCount : List (ℕ × Option ℕ) → ℕ
  | [] => 0
  | (_, none) :: rest => twoCount rest
  | (_, some _) :: rest => twoCount rest + 1

/-! ### Ledger derivations (src lines 144-161 and 183-207) -/

/-- Python truthiness of an optional faction string: None and the empty string
are both skipped by the counters on lines 152 and 156. -/
def nonEmptyStr : Option String → Option String
  | none => none
  | some s => if s = "" then none else some s

/-- The recorded faction occurrences of a player: a_faction of every match
where the player is side A (line 151) followed by b_faction of every match
where the player is side B (line 155), empty values skipped. -/
def involvedFactions (ms : List Match) (pid : ℕ) : List String :=
  (ms.filter fun m => decide (m.player_a_id = pid)).filterMap (fun m => nonEmptyStr m.a_faction)
    ++ (ms.filter fun m => decide (m.player_b_id = some pid)).filterMap (fun m => nonEmptyStr m.b_faction)

/-- counts[f] of line 153 and 157: occurrences of a faction for a player. -/
def fcount (ms : List Match) (pid : ℕ) (f : String) : ℕ :=
  (involvedFactions ms pid).count f

/-- Code-point lexicographic comparison of character lists: the order Python
uses to compare strings. -/
def charListLt : List Char → List Char → Bool
  | [], [] => false
  | [], _ :: _ => true
  | _ :: _, [] => false
  | a :: as, b :: bs => if a < b then true else if b < a then false else charListLt as bs

/-- Python string comparison a < b. -/
def pyStrLt (a b : String) : Bool := charListLt a.data b.data

/-- Python string comparison a <= b. -/
def strLe (a b : String) : Prop := a = b ∨ pyStrLt a b = true

/-- f beats-or-equals g under the sort key of line 161, (-count, name):
strictly more occurrences, or equally many and alphabetically no later. -/
def Better (cnt : String → ℕ) (f g : String) : Prop :=
  cnt g < cnt f ∨ (cnt g = cnt f ∧ strLe f g)

/-- The head of sorted(counts.items(), key (-count, name)) (line 161), computed
as the minimum of the recorded faction names under that key (the keys of the
counts dict are exactly the distinct recorded faction strings). -/
def pickBest (cnt : String → ℕ) : String → List String → String
  | best, [] => best
  | best, f :: fs =>
    pickBest cnt (if cnt best < cnt f ∨ (cnt f = cnt best ∧ pyStrLt f best = true) then f else best) fs

/-- Embeds most_played_faction (lines 144-161). -/
def most_played_faction (ms : List Match) (pid : ℕ) : Option String :=
  match (involvedFactions ms pid).dedup with
  | [] => none
  | k :: ks => some (pickBest (fcount ms pid) k ks)

/-- Componentwise addition of (wins, draws, losses) tallies. -/
def addT : ℕ × ℕ × ℕ → ℕ × ℕ × ℕ → ℕ × ℕ × ℕ
  | (a, b, c), (d, e, f) => (a + d, b + e, c + f)

/-- The per-match increment of the loop body on lines 191-206; the outer guard
is the involvement filter of the query on lines 188-190. -/
def matchContrib (pid : ℕ) (m : Match) : ℕ × ℕ × ℕ :=
  if m.player_a_id = pid ∨ m.player_b_id = some pid then
    match m.player_b_id with
    | none => if m.player_a_id = pid ∧ m.result ≠ "pending" then (1, 0, 0) else (0, 0, 0)
    | some _ =>
      if m.result = "pending" then (0, 0, 0)
      else if m.result = "draw" then (0, 1, 0)
      else if m.result = "a_win" then
        (if m.player_a_id = pid then (1, 0, 0) else (0, 0, 1))
      else if m.result = "b_win" then
        (if m.player_b_id = some pid then (1, 0, 0) else (0, 0, 1))
      else (0, 0, 0)
  else (0, 0, 0)

/-- Embeds player_record (lines 183-207): (wins, draws, losses) of a player. -/
def player_record : List Match → ℕ → ℕ × ℕ × ℕ
  | [], _ => (0, 0, 0)
  | m :: ms, pid => addT (matchContrib pid m) (player_record ms pid)

/-! ### Row lookup and first-occurrence update (the ORM get and commit) -/

/-- session.get(Match, mid): the row with the given primary key. -/
def findMatch : List Match → ℕ → Option Match
  | [], _ => none
  | m :: ms, mid => if m.id = mid then some m else findMatch ms mid

/-- session.get(Player, pid): the row with the given primary key. -/
def findPlayer : List Player → ℕ → Option Player
  | [], _ => none
  | p :: ps, pid => if p.id = pid then some p else findPlayer ps pid

/-- Committing a mutated Match object: replace the row with that primary key. -/
def setFirst : List Match → ℕ → Match → List Match
  | [], _, _ => []
  | x :: xs, mid, m => if x.id = mid then m :: xs else x :: setFirst xs mid m

/-- Committing a mutated Player rating: replace the row with that primary key. -/
def setPlayerRating : List Player → ℕ → ℚ → List Player
  | [], _, _ => []
  | p :: ps, pid, r => if p.id = pid then { p with rating := r } :: ps else p :: setPlayerRating ps pid r

/-! ### Result submission (src lines 468-483, Enter Results tab) -/

/-- The condition re-checked on line 471 inside the write transaction: the
match row exists and is still pending. -/
def matchPending (st : LeagueState) (mid : ℕ) : Bool :=
  match findMatch st.matches' mid with
  | none => false
  | some m => m.result == "pending"

/-- Outcome of the save-result handler. -/
inductive RecOutcome
  | conflict
  | fatal
  | savedBye
  | saved
deriving DecidableEq

/-- The row mutation of the bye branch (lines 474-477): result a_win, after
rating equal to the before rating, no K-factor, reported now. -/
def resolvedBye (m : Match) (pa : Player) (a_fac : Option String) (now : ℕ) : Match :=
  { m with
    a_rating_before := some pa.rating, b_rating_before := none,
    result := "a_win", a_rating_after := some pa.rating,
    k_factor_used := none, reported_at := some now,
    a_faction := a_fac, b_faction := none }

/-- Embeds the save-result handler (lines 468-483).  upd stands for the float
function update_elo of the source (modelled over the reals above; the state
machine only plumbs its output values through, so it is a parameter here).
result is the selectbox value, k the chosen K-factor, now the reported_at
tick.  fatal marks the unhandled crash the source would hit when the side-A
player row is missing; the pending re-check (line 471) answers conflict and
changes nothing. -/
def recordResult (upd : ℚ → ℚ → ℚ → ℕ → ℚ × ℚ) (st : LeagueState) (mid : ℕ)
    (result : String) (k : ℕ) (a_fac b_fac : Option String) (now : ℕ) :
    RecOutcome × LeagueState :=
  match findMatch st.matches' mid with
  | none => (.conflict, st)
  | some m =>
    if m.result ≠ "pending" then (.conflict, st)
    else
      match findPlayer st.players m.player_a_id with
      | none => (.fatal, st)
      | some pa =>
        let pb := match m.player_b_id with
          | none => none
          | some bid => findPlayer st.players bid
        match pb with
        | none =>
          (.savedBye, { st with matches' := setFirst st.matches' mid (resolvedBye m pa a_fac now) })
        | some pb =>
          let score_a : ℚ := if result = "a_win" then 1 else if result = "b_win" then 0 else 1 / 2
          let new := upd pa.rating pb.rating score_a k
          let m' := { m with
            a_rating_before := some pa.rating, b_rating_before := some pb.rating,
            result := result, a_rating_after := some new.1, b_rating_after := some new.2,
            k_factor_used := some k, reported_at := some now,
            a_faction := a_fac, b_faction := b_fac }
          (.saved, { st with
            matches' := setFirst st.matches' mid m',
            players := setPlayerRating (setPlayerRating st.players pa.id new.1) pb.id new.2 })

/-! ### Pairing generation handler (src lines 677-685) -/

/-- Line 682: ids of the attendance rows of the week that mark a player
present (the source builds a set; only membership and emptiness are used). -/
def presentIds (st : LeagueState) (week : String) : List ℕ :=
  (st.attendance.filter fun r => r.week == week && r.present).map Attendance.player_id

/-- Line 683: restrict = attendance_ids if attendance_ids else None. -/
def restrictFor (st : LeagueState) (week : String) : Option (List ℕ) :=
  let att := presentIds st week
  if att.isEmpty then none else some att

/-- Lines 241-244: one pending Match row per generated pair, primary keys
assigned in insertion order. -/
def createMatches (week : String) : ℕ → List (ℕ × Option ℕ) → List Match
  | _, [] => []
  | nid, (a, b) :: rest =>
    { id := nid, week := week, player_a_id := a, player_b_id := b, result := "pending" }
      :: createMatches week (nid + 1) rest

/-- Outcome of the generate-pairings handler. -/
inductive GenOutcome
  | conflict
  | ok (n : ℕ)
deriving DecidableEq

/-- Embeds the generate-pairings button handler (lines 677-685) together with
the persistence part of generate_weekly_pairings (lines 241-244): refuse when
any match already exists for the week, otherwise create one pending row per
generated pair. -/
def generatePairings (st : LeagueState) (week : String) : GenOutcome × LeagueState :=
  let existing := st.matches'.filter fun m => m.week == week
  if existing.isEmpty then
    let pairs := generate_weekly_pairings st.players (restrictFor st week) (fetch_past_pairs st.matches')
    let created := createMatches week st.nextId pairs
    (.ok created.length,
      { st with matches' := st.matches' ++ created, nextId := st.nextId + created.length })
  else (.conflict, st)

/-- The same state with the attendance rows of one week deleted. -/
def stripWeekAttendance (st : LeagueState) (week : String) : LeagueState :=
  { st with attendance := st.attendance.filter fun r => !(r.week == week) }

/-! ### Manual pairing editor (src lines 739-773) -/

/-- Python str.strip(): leading and trailing whitespace removed. -/
def pyStrip (s : String) : String :=
  String.mk (((s.data.dropWhile Char.isWhitespace).reverse.dropWhile Char.isWhitespace).reverse)

/-- Python str.upper(). -/
def pyUpper (s : String) : String :=
  String.mk (s.data.map Char.toUpper)

/-- Python str.isdigit() restricted to ASCII: nonempty and all decimal digits. -/
def pyIsdigit (s : String) : Bool :=
  !s.data.isEmpty && s.data.all Char.isDigit

/-- Python int() on a digit string. -/
def pyInt (s : String) : ℕ :=
  s.data.foldl (fun n c => 10 * n + (c.toNat - 48)) 0

/-- Line 740: the text box content, modelled as the list of comma-separated
fields; each is stripped and uppercased, empty fields are dropped. -/
def parseTokens (fields : List String) : List String :=
  ((fields.map pyStrip).filter fun t => decide (t ≠ "")).map pyUpper

/-- A token the parse loop of lines 743-749 accepts: the bye marker or digits. -/
def isIdToken (t : String) : Bool :=
  t == "BYE" || pyIsdigit t

/-- The parse loop of lines 743-749: skip BYE tokens, collect integer tokens in
order, stop with the first invalid token (the for-else break). -/
def collectIds : List String → Except String (List ℕ)
  | [] => .ok []
  | t :: ts =>
    if t = "BYE" then collectIds ts
    else if pyIsdigit t then
      match collectIds ts with
      | .ok ids => .ok (pyInt t :: ids)
      | .error e => .error e
    else .error t

/-- The player ids of an input, BYE tokens discarded: what the parse loop
collects whenever no token is invalid. -/
def digitIds (fields : List String) : List ℕ :=
  (((parseTokens fields).filter fun t => decide (t ≠ "BYE"))).map pyInt

/-- The while loop of lines 762-770: consecutive ids are paired in the given
order and a trailing odd id receives the bye. -/
def chunkPairs : List ℕ → List (ℕ × Option ℕ)
  | [] => []
  | [a] => [(a, none)]
  | a :: b :: rest => (a, some b) :: chunkPairs rest

/-- Outcome of the apply-manual-pairings handler. -/
inductive ManualOutcome
  | invalidToken (t : String)
  | emptyIds
  | duplicateIds
  | created (n : ℕ)
deriving DecidableEq

/-- The rejected outcomes of the handler (its ValidationError cases). -/
def isValidationOutcome : ManualOutcome → Bool
  | .invalidToken _ => true
  | .emptyIds => true
  | .duplicateIds => true
  | .created _ => false

/-- Embeds the apply-manual-pairings handler (lines 739-773): parse the
comma-separated field list, reject an invalid token, an empty id list or a
duplicate id with no state change; otherwise optionally delete the pending
matches of the week, then insert one pending row per consecutive pair. -/
def applyManualPairings (st : LeagueState) (week : String) (fields : List String)
    (clear_pending : Bool) : ManualOutcome × LeagueState :=
  match collectIds (parseTokens fields) with
  | .error t => (.invalidToken t, st)
  | .ok ids =>
    if ids.length = 0 then (.emptyIds, st)
    else if ¬ ids.Nodup then (.duplicateIds, st)
    else
      let st1 := if clear_pending
        then { st with matches' := st.matches'.filter fun m => !(m.week == week && m.result == "pending") }
        else st
      let created := createMatches week st1.nextId (chunkPairs ids)
      (.created created.length,
        { st1 with matches' := st1.matches' ++ created, nextId := st1.nextId + created.length })

/-! ### Concrete inputs used by the claim instances -/

/-- An odd five-player pool used to exhibit the bye of claim C4. -/
def fivePlayers : List Player :=
  [⟨1, "A", 1200, true, none⟩, ⟨2, "B", 1100, true, none⟩,
   ⟨3, "C", 1000, true, none⟩, ⟨4, "D", 900, true, none⟩,
   ⟨5, "E", 800, true, none⟩]

/-- The four-player pool of claim C3: A, B, C, D at ratings 1200, 1100, 1000,
900 with ids 1, 2, 3, 4. -/
def fourPlayers : List Player :=
  [⟨1, "A", 1200, true, none⟩, ⟨2, "B", 1100, true, none⟩,
   ⟨3, "C", 1000, true, none⟩, ⟨4, "D", 900, true, none⟩]

/-- Faction history of claim C7: player 1 recorded Empire of Man three times
(twice as side A, once as side B) and Dwarfen Mountain Holds once. -/
def exMatchesEmpire : List Match :=
  [{ id := 1, week := "01/01/2025", player_a_id := 1, player_b_id := some 2,
     result := "a_win", a_faction := some "Empire of Man", b_faction := some "Skaven" },
   { id := 2, week := "08/01/2025", player_a_id := 1, player_b_id := some 3,
     result := "draw", a_faction := some "Empire of Man" },
   { id := 3, week := "15/01/2025", player_a_id := 2, player_b_id := some 1,
     result := "b_win", a_faction := some "Skaven", b_faction := some "Empire of Man" },
   { id := 4, week := "22/01/2025", player_a_id := 1, player_b_id := some 4,
     result := "b_win", a_faction := some "Dwarfen Mountain Holds" }]

/-- Faction history of claim C7, tie case: two recorded occurrences each. -/
def exMatchesTie : List Match :=
  [{ id := 1, week := "01/01/2025", player_a_id := 1, player_b_id := some 2,
     result := "a_win", a_faction := some "Empire of Man" },
   { id := 2, week := "08/01/2025", player_a_id := 1, player_b_id := some 3,
     result := "draw", a_faction := some "Empire of Man" },
   { id := 3, week := "15/01/2025", player_a_id := 1, player_b_id := some 4,
     result := "b_win", a_faction := some "Dwarfen Mountain Holds" },
   { id := 4, week := "22/01/2025", player_a_id := 1, player_b_id := some 5,
     result := "a_win", a_faction := some "Dwarfen Mountain Holds" }]

/-- Witness state: one already-reported match. -/
def recordedState : LeagueState :=
  { players := [⟨7, "Heinrich", 1000, true, none⟩, ⟨8, "Vlad", 1000, true, none⟩],
    matches' := [{ id := 1, week := "01/01/2025", player_a_id := 7, player_b_id := some 8,
                   result := "a_win" }],
    attendance := [], nextId := 2 }

/-- Witness data: a pending bye match for player 7 and its recipient. -/
def byeMatch : Match := { id := 1, week := "01/01/2025", player_a_id := 7 }

/-- Witness data: the bye recipient. -/
def heinrich : Player := ⟨7, "Heinrich", 1050, true, none⟩

/-- Witness state: one pending bye match for player 7, next to an older
reported match of the same player. -/
def byeState : LeagueState :=
  { players := [heinrich],
    matches' := [byeMatch,
                 { id := 2, week := "25/12/2024", player_a_id := 7, player_b_id := some 9,
                   result := "a_win" }],
    attendance := [], nextId := 3 }

/-- Witness state: attendance rows exist for the week but mark nobody present. -/
def nobodyPresentState : LeagueState :=
  { players := [⟨7, "Heinrich", 1050, true, none⟩, ⟨8, "Vlad", 950, true, none⟩],
    matches' := [],
    attendance := [⟨"01/01/2025", 7, false⟩, ⟨"01/01/2025", 8, false⟩], nextId := 1 }

/-- A trivial stand-in for the updater parameter in witnesses that never reach
the rating-update branch. -/
def idUpd : ℚ → ℚ → ℚ → ℕ → ℚ × ℚ := fun a b _ _ => (a, b)

end OWL

/-! Claim theorems -/

namespace OWL

/-- Claim C2: update_elo returns exactly the pair of spec formulas, each side
using its own expected score, and expected_score is exactly the logistic curve
1 / (1 + 10 ^ ((ro - rp) / 400)). -/
theorem update_elo_matches_spec (ra rb sa : ℝ) (k : ℕ)
    (_hsa : sa = 0 ∨ sa = 1 / 2 ∨ sa = 1) :
    update_elo ra rb sa k = applyMatchResult ra rb sa k ∧
    expected_score ra rb = 1 / (1 + (10 : ℝ) ^ ((rb - ra) / 400)) :=
  ⟨rfl, rfl⟩

/-- Witness for C2 at concrete ratings 1200 and 1000, a win for A with K = 40. -/
theorem update_elo_matches_spec_witness :
    update_elo 1200 1000 1 40 = applyMatchResult 1200 1000 1 40 ∧
    expected_score 1200 1000 = 1 / (1 + (10 : ℝ) ^ (((1000 : ℝ) - 1200) / 400)) :=
  update_elo_matches_spec 1200 1000 1 40 (Or.inr (Or.inr rfl))

end OWL

namespace OWL

/-- Claim C3: on the pool A(1200), B(1100), C(1000), D(900) (ids 1-4), pairing
with an empty past-pairs index yields (A,B),(C,D); with exactly the pair
(A,B) in the index it yields (A,C),(B,D). -/
theorem pairing_four_player_examples :
    generate_weekly_pairings fourPlayers none [] = [(1, some 2), (3, some 4)] ∧
    generate_weekly_pairings fourPlayers none [(1, 2)] = [(1, some 3), (2, some 4)] := by
  decide

/-- Claim C1: when the match row is missing or its stored result is no longer
pending (the re-check of line 471), the save-result handler reports the
conflict and returns the state unchanged: every Match field and every Player
rating is left as it was, whatever updater, submitted result, K-factor,
factions and clock are in play. -/
theorem recordResult_already_recorded (upd : ℚ → ℚ → ℚ → ℕ → ℚ × ℚ)
    (st : LeagueState) (mid : ℕ) (result : String) (k : ℕ)
    (fa fb : Option String) (now : ℕ)
    (h : matchPending st mid = false) :
    recordResult upd st mid result k fa fb now = (RecOutcome.conflict, st) := by
  unfold matchPending at h
  cases hfind : findMatch st.matches' mid with
  | none => simp [recordResult, hfind]
  | some m =>
    rw [hfind] at h
    simp only [beq_eq_false_iff_ne, ne_eq] at h
    simp [recordResult, hfind, h]

/-- Witness for C1: re-submitting a draw against the already-reported match of
recordedState changes nothing and reports the conflict. -/
theorem recordResult_already_recorded_witness :
    recordResult idUpd recordedState 1 "draw" 40 none none 5 =
      (RecOutcome.conflict, recordedState) :=
  recordResult_already_recorded idUpd recordedState 1 "draw" 40 none none 5 (by decide)

/-- Rows inserted by pairing generation are pending rows of the given week. -/
theorem createMatches_mem (week : String) :
    ∀ (pairs : List (ℕ × Option ℕ)) (nid : ℕ), ∀ m ∈ createMatches week nid pairs,
      m.week = week ∧ m.result = "pending"
  | [], _, m, hm => by simp [createMatches] at hm
  | (a, b) :: rest, nid, m, hm => by
    simp only [createMatches, List.mem_cons] at hm
    rcases hm with hm | hm
    · subst hm; exact ⟨rfl, rfl⟩
    · exact createMatches_mem week rest (nid + 1) m hm

/-- Claim C5: if any match already exists for the week the generate-pairings
handler signals the conflict and creates nothing; new rows are created only
when the week has zero matches, and then they are pending rows of that week
appended to the ledger. -/
theorem generatePairings_guard (st : LeagueState) (week : String) :
    ((∃ m ∈ st.matches', m.week = week) →
      generatePairings st week = (GenOutcome.conflict, st)) ∧
    ((∀ m ∈ st.matches', m.week ≠ week) →
      ∃ created, generatePairings st week =
          (GenOutcome.ok created.length,
            { st with matches' := st.matches' ++ created,
                      nextId := st.nextId + created.length }) ∧
        ∀ m ∈ created, m.week = week ∧ m.result = "pending") := by
  constructor
  · rintro ⟨m, hm, hw⟩
    have hmem : m ∈ st.matches'.filter fun m => m.week == week :=
      List.mem_filter.2 ⟨hm, by simp [hw]⟩
    have hne : (st.matches'.filter fun m => m.week == week).isEmpty = false := by
      cases hE : (st.matches'.filter fun m => m.week == week).isEmpty
      · rfl
      · rw [List.isEmpty_iff] at hE
        rw [hE] at hmem
        cases hmem
    simp [generatePairings, hne]
  · intro h
    have hnil : (st.matches'.filter fun m => m.week == week) = [] := by
      apply List.filter_eq_nil_iff.2
      intro m hm
      simp [h m hm]
    refine ⟨createMatches week st.nextId
      (generate_weekly_pairings st.players (restrictFor st week) (fetch_past_pairs st.matches')),
      ?_, ?_⟩
    · simp [generatePairings, hnil]
    · exact createMatches_mem week _ _

/-- Witness for C5 at a state that already has a match for the week. -/
theorem generatePairings_guard_witness :
    generatePairings recordedState "01/01/2025" = (GenOutcome.conflict, recordedState) :=
  (generatePairings_guard recordedState "01/01/2025").1 (by decide)

/-- Claim C9: attendance rows that mark nobody present restrict nothing: the
computed restriction is None, and the handler behaves exactly as on the same
state with the attendance rows of the week deleted. -/
theorem empty_present_set_no_restriction (st : LeagueState) (week : String)
    (h : presentIds st week = []) :
    restrictFor st week = none ∧
    (generatePairings st week).1 = (generatePairings (stripWeekAttendance st week) week).1 ∧
    (generatePairings st week).2.matches' =
      (generatePairings (stripWeekAttendance st week) week).2.matches' := by
  have h1 : restrictFor st week = none := by simp [restrictFor, h]
  have h2 : presentIds (stripWeekAttendance st week) week = [] := by
    unfold presentIds stripWeekAttendance
    apply List.eq_nil_of_length_eq_zero
    simp only [List.length_map]
    rw [List.length_eq_zero, List.filter_eq_nil_iff]
    intro r hr
    rcases List.mem_filter.1 hr with ⟨_, hrw⟩
    simp only [Bool.not_eq_true'] at hrw
    simp [hrw]
  have h3 : restrictFor (stripWeekAttendance st week) week = none := by
    simp [restrictFor, h2]
  refine ⟨h1, ?_⟩
  have hm : (stripWeekAttendance st week).matches' = st.matches' := rfl
  have hp : (stripWeekAttendance st week).players = st.players := rfl
  have hn : (stripWeekAttendance st week).nextId = st.nextId := rfl
  unfold generatePairings
  rw [h1, h3, hm, hp]
  cases hE : (st.matches'.filter fun m => m.week == week).isEmpty <;> simp [hE, hm, hn]

/-- When every token is the bye marker or digits, the parse loop succeeds and
collects exactly the integer tokens, in order, with BYE tokens discarded. -/
theorem collectIds_ok : ∀ ts : List String, (∀ t ∈ ts, isIdToken t = true) →
    collectIds ts = Except.ok ((ts.filter fun t => decide (t ≠ "BYE")).map pyInt)
  | [], _ => rfl
  | t :: ts, h => by
    have ht := h t (List.mem_cons_self t ts)
    have hts := collectIds_ok ts fun x hx => h x (List.mem_cons_of_mem t hx)
    by_cases hB : t = "BYE"
    · subst hB
      simp [collectIds, hts]
    · have hd : pyIsdigit t = true := by
        unfold isIdToken at ht
        simp only [Bool.or_eq_true, beq_iff_eq] at ht
        rcases ht with ht | ht
        · exact absurd ht hB
        · exact ht
      simp [collectIds, hB, hd, hts]

/-- A token that is neither the bye marker nor digits makes the parse loop
stop with an error. -/
theorem collectIds_error : ∀ ts : List String, (∃ t ∈ ts, isIdToken t = false) →
    ∃ e, collectIds ts = Except.error e
  | [], h => by simp at h
  | t :: ts, h => by
    by_cases hB : t = "BYE"
    · subst hB
      have hrest : ∃ x ∈ ts, isIdToken x = false := by
        rcases h with ⟨x, hx, hbad⟩
        rcases List.mem_cons.1 hx with rfl | hx
        · simp [isIdToken] at hbad
        · exact ⟨x, hx, hbad⟩
      rcases collectIds_error ts hrest with ⟨e, he⟩
      exact ⟨e, by simp [collectIds, he]⟩
    · by_cases hd : pyIsdigit t = true
      · have hrest : ∃ x ∈ ts, isIdToken x = false := by
          rcases h with ⟨x, hx, hbad⟩
          rcases List.mem_cons.1 hx with rfl | hx
          · simp [isIdToken, hd] at hbad
          · exact ⟨x, hx, hbad⟩
        rcases collectIds_error ts hrest with ⟨e, he⟩
        refine ⟨e, ?_⟩
        simp [collectIds, hB, hd, he]
      · refine ⟨t, ?_⟩
        simp [collectIds, hB, hd]

/-- Claim C8: an invalid token, a duplicate id or an input with no ids at all
makes the manual pairing handler reject with a validation outcome and leave
the state untouched. -/
theorem applyManualPairings_rejects (st : LeagueState) (week : String)
    (fields : List String) (clear_pending : Bool)
    (h : (∃ t ∈ parseTokens fields, isIdToken t = false) ∨
         digitIds fields = [] ∨ ¬ (digitIds fields).Nodup) :
    isValidationOutcome (applyManualPairings st week fields clear_pending).1 = true ∧
    (applyManualPairings st week fields clear_pending).2 = st := by
  by_cases hbad : ∃ t ∈ parseTokens fields, isIdToken t = false
  · rcases collectIds_error _ hbad with ⟨e, he⟩
    simp [applyManualPairings, he, isValidationOutcome]
  · have hall : ∀ t ∈ parseTokens fields, isIdToken t = true := by
      intro t ht
      cases hv : isIdToken t
      · exact absurd ⟨t, ht, hv⟩ hbad
      · rfl
    have hok : collectIds (parseTokens fields) = Except.ok (digitIds fields) :=
      collectIds_ok _ hall
    rcases h with h | h | h
    · exact absurd h hbad
    · simp [applyManualPairings, hok, h, isValidationOutcome]
    · have hne : digitIds fields ≠ [] := fun hnil => h (hnil ▸ List.nodup_nil)
      have hlen : (digitIds fields).length ≠ 0 := by
        simpa [List.length_eq_zero] using hne
      simp [applyManualPairings, hok, hlen, h, isValidationOutcome]

/-- Witness for C8: the token x is rejected and the state is unchanged. -/
theorem applyManualPairings_rejects_witness :
    isValidationOutcome (applyManualPairings recordedState "08/01/2025" ["7", "x"] true).1 = true ∧
    (applyManualPairings recordedState "08/01/2025" ["7", "x"] true).2 = recordedState :=
  applyManualPairings_rejects recordedState "08/01/2025" ["7", "x"] true (Or.inl (by decide))

/-- The while loop of lines 762-770 mentions each collected id once, in the
given order. -/
theorem playersOf_chunkPairs : ∀ l : List ℕ, playersOf (chunkPairs l) = l
  | [] => rfl
  | [a] => rfl
  | a :: b :: rest => by
    simp [chunkPairs, playersOf, playersOf_chunkPairs rest]

/-- The while loop leaves exactly one bye when the id count is odd. -/
theorem byeCount_chunkPairs : ∀ l : List ℕ, byeCount (chunkPairs l) = l.length % 2
  | [] => rfl
  | [a] => rfl
  | a :: b :: rest => by
    simp only [chunkPairs, byeCount, byeCount_chunkPairs rest, List.length_cons]
    omega

/-- Claim C10: once every token is the bye marker or digits, the handler
depends only on the id sequence with BYE tokens discarded; the ids are paired
consecutively in the given order, the final id receives the bye exactly when
the id count is odd, and a single-id input is accepted as one bye match. -/
theorem applyManualPairings_pairs_in_order (st : LeagueState) (week : String)
    (fields : List String) (clear_pending : Bool)
    (hall : ∀ t ∈ parseTokens fields, isIdToken t = true)
    (hne : digitIds fields ≠ [])
    (hnd : (digitIds fields).Nodup) :
    (applyManualPairings st week fields clear_pending =
      (let st1 := if clear_pending
          then { st with matches' := st.matches'.filter fun m => !(m.week == week && m.result == "pending") }
          else st
       let created := createMatches week st1.nextId (chunkPairs (digitIds fields))
       (ManualOutcome.created created.length,
        { st1 with matches' := st1.matches' ++ created,
                   nextId := st1.nextId + created.length }))) ∧
    playersOf (chunkPairs (digitIds fields)) = digitIds fields ∧
    byeCount (chunkPairs (digitIds fields)) = (digitIds fields).length % 2 ∧
    ((digitIds fields).length = 1 → ∃ a, chunkPairs (digitIds fields) = [(a, none)]) := by
  have hok : collectIds (parseTokens fields) = Except.ok (digitIds fields) :=
    collectIds_ok _ hall
  have hlen : (digitIds fields).length ≠ 0 := by
    simpa [List.length_eq_zero] using hne
  refine ⟨?_, playersOf_chunkPairs _, byeCount_chunkPairs _, ?_⟩
  · simp [applyManualPairings, hok, hlen, hnd]
  · intro h1
    rcases List.length_eq_one.1 h1 with ⟨a, ha⟩
    refine ⟨a, ?_⟩
    rw [ha]
    rfl

/-- Witness for C10: the input BYE, 7, bye is accepted, the BYE tokens are
ignored, and the single id 7 receives a bye match. -/
theorem applyManualPairings_pairs_in_order_witness :
    (applyManualPairings recordedState "08/01/2025" ["BYE", " 7 ", "bye"] false =
      (let st1 := if false
          then { recordedState with matches' := recordedState.matches'.filter fun m => !(m.week == "08/01/2025" && m.result == "pending") }
          else recordedState
       let created := createMatches "08/01/2025" st1.nextId (chunkPairs (digitIds ["BYE", " 7 ", "bye"]))
       (ManualOutcome.created created.length,
        { st1 with matches' := st1.matches' ++ created,
                   nextId := st1.nextId + created.length }))) ∧
    playersOf (chunkPairs (digitIds ["BYE", " 7 ", "bye"])) = digitIds ["BYE", " 7 ", "bye"] ∧
    byeCount (chunkPairs (digitIds ["BYE", " 7 ", "bye"])) = (digitIds ["BYE", " 7 ", "bye"]).length % 2 ∧
    ((digitIds ["BYE", " 7 ", "bye"]).length = 1 →
      ∃ a, chunkPairs (digitIds ["BYE", " 7 ", "bye"]) = [(a, none)]) :=
  applyManualPairings_pairs_in_order recordedState "08/01/2025" ["BYE", " 7 ", "bye"] false
    (by decide) (by decide) (by decide)

/-- charListLt is transitive. -/
theorem charListLt_trans : ∀ (a b c : List Char),
    charListLt a b = true → charListLt b c = true → charListLt a c = true := by
  intro a
  induction a with
  | nil =>
    intro b c h1 h2
    cases b with
    | nil => simp [charListLt] at h1
    | cons bb bs =>
      cases c with
      | nil => simp [charListLt] at h2
      | cons cc cs => simp [charListLt]
  | cons aa as ih =>
    intro b c h1 h2
    cases b with
    | nil => simp [charListLt] at h1
    | cons bb bs =>
      cases c with
      | nil => simp [charListLt] at h2
      | cons cc cs =>
        simp only [charListLt] at h1 h2 ⊢
        by_cases hab : aa < bb
        · by_cases hbc : bb < cc
          · simp [lt_trans hab hbc]
          · by_cases hcb : cc < bb
            · rw [if_neg hbc, if_pos hcb] at h2
              cases h2
            · have hbceq : bb = cc := le_antisymm (not_lt.1 hcb) (not_lt.1 hbc)
              subst hbceq
              simp [hab]
        · by_cases hba : bb < aa
          · rw [if_neg hab, if_pos hba] at h1
            cases h1
          · have habeq : aa = bb := le_antisymm (not_lt.1 hba) (not_lt.1 hab)
            subst habeq
            rw [if_neg (lt_irrefl aa), if_neg (lt_irrefl aa)] at h1
            by_cases hac : aa < cc
            · simp [hac]
            · by_cases hca : cc < aa
              · rw [if_neg hac, if_pos hca] at h2
                cases h2
              · have haceq : aa = cc := le_antisymm (not_lt.1 hca) (not_lt.1 hac)
                subst haceq
                rw [if_neg (lt_irrefl aa), if_neg (lt_irrefl aa)] at h2 ⊢
                exact ih bs cs h1 h2

/-- charListLt is total up to equality. -/
theorem charListLt_total : ∀ (a b : List Char),
    charListLt a b = true ∨ a = b ∨ charListLt b a = true := by
  intro a
  induction a with
  | nil =>
    intro b
    cases b with
    | nil => exact Or.inr (Or.inl rfl)
    | cons bb bs => exact Or.inl rfl
  | cons aa as ih =>
    intro b
    cases b with
    | nil => exact Or.inr (Or.inr rfl)
    | cons bb bs =>
      rcases lt_trichotomy aa bb with h | h | h
      · refine Or.inl ?_
        simp [charListLt, h]
      · subst h
        rcases ih bs with h2 | h2 | h2
        · refine Or.inl ?_
          simp [charListLt, h2]
        · rw [h2]
          exact Or.inr (Or.inl rfl)
        · refine Or.inr (Or.inr ?_)
          simp [charListLt, h2]
      · refine Or.inr (Or.inr ?_)
        simp [charListLt, h]

/-- Two strings with the same characters are equal. -/
theorem str_eq_of_data_eq {a b : String} (h : a.data = b.data) : a = b := by
  cases a
  cases b
  exact congrArg String.mk h

/-- strLe is reflexive. -/
theorem strLe_refl (f : String) : strLe f f := Or.inl rfl

/-- strLe is transitive. -/
theorem strLe_trans {f g h : String} : strLe f g → strLe g h → strLe f h := by
  rintro (rfl | h1) (rfl | h2)
  · exact Or.inl rfl
  · exact Or.inr h2
  · exact Or.inr h1
  · exact Or.inr (charListLt_trans _ _ _ h1 h2)

/-- Totality of the Python string order. -/
theorem strLe_of_not_lt {f b : String} (h : ¬ pyStrLt f b = true) : strLe b f := by
  rcases charListLt_total f.data b.data with h1 | h1 | h1
  · exact absurd h1 h
  · exact Or.inl (str_eq_of_data_eq h1).symm
  · exact Or.inr h1

/-- Better is reflexive. -/
theorem better_refl (cnt : String → ℕ) (f : String) : Better cnt f f :=
  Or.inr ⟨rfl, strLe_refl f⟩

/-- Better is transitive. -/
theorem better_trans (cnt : String → ℕ) {f g h : String} :
    Better cnt f g → Better cnt g h → Better cnt f h := by
  rintro (h1 | ⟨h1, h1'⟩) (h2 | ⟨h2, h2'⟩)
  · exact Or.inl (lt_trans h2 h1)
  · exact Or.inl (h2 ▸ h1)
  · exact Or.inl (lt_of_lt_of_le h2 (le_of_eq h1))
  · exact Or.inr ⟨h2.trans h1, strLe_trans h1' h2'⟩

/-- The selected faction is the seed or one of the scanned keys. -/
theorem pickBest_cases (cnt : String → ℕ) :
    ∀ (fs : List String) (b : String), pickBest cnt b fs = b ∨ pickBest cnt b fs ∈ fs
  | [], _ => Or.inl rfl
  | f :: fs, b => by
    rcases pickBest_cases cnt fs
        (if cnt b < cnt f ∨ (cnt f = cnt b ∧ pyStrLt f b = true) then f else b) with hc | hc
    · by_cases hif : cnt b < cnt f ∨ (cnt f = cnt b ∧ pyStrLt f b = true)
      · rw [if_pos hif] at hc
        exact Or.inr (by rw [pickBest, if_pos hif, hc]; exact List.mem_cons_self f fs)
      · rw [if_neg hif] at hc
        exact Or.inl (by rw [pickBest, if_neg hif, hc])
    · exact Or.inr (by rw [pickBest]; exact List.mem_cons_of_mem f hc)

/-- The selected faction beats-or-equals the seed and every scanned key. -/
theorem pickBest_better (cnt : String → ℕ) :
    ∀ (fs : List String) (b g : String), (g = b ∨ g ∈ fs) →
      Better cnt (pickBest cnt b fs) g
  | [], b, g, hg => by
    rcases hg with rfl | hg
    · exact better_refl cnt g
    · cases hg
  | f :: fs, b, g, hg => by
    set b' := if cnt b < cnt f ∨ (cnt f = cnt b ∧ pyStrLt f b = true) then f else b with hb'
    have hstep : Better cnt b' b ∧ Better cnt b' f := by
      by_cases hif : cnt b < cnt f ∨ (cnt f = cnt b ∧ pyStrLt f b = true)
      · rw [hb', if_pos hif]
        refine ⟨?_, better_refl cnt f⟩
        rcases hif with hif | ⟨hif, hif'⟩
        · exact Or.inl hif
        · exact Or.inr ⟨hif.symm, Or.inr hif'⟩
      · rw [hb', if_neg hif]
        refine ⟨better_refl cnt b, ?_⟩
        have hle : cnt f ≤ cnt b := not_lt.1 fun hlt => hif (Or.inl hlt)
        rcases lt_or_eq_of_le hle with hlt | heq
        · exact Or.inl hlt
        · have hnlt : ¬ pyStrLt f b = true := fun hr => hif (Or.inr ⟨heq, hr⟩)
          exact Or.inr ⟨heq, strLe_of_not_lt hnlt⟩
    have hrec : pickBest cnt b (f :: fs) = pickBest cnt b' fs := by
      rw [pickBest]
    rcases hg with rfl | hg
    · exact hrec ▸ better_trans cnt (pickBest_better cnt fs b' b' (Or.inl rfl)) hstep.1
    · rcases List.mem_cons.1 hg with rfl | hg
      · exact hrec ▸ better_trans cnt (pickBest_better cnt fs b' b' (Or.inl rfl)) hstep.2
      · exact hrec ▸ pickBest_better cnt fs b' g (Or.inr hg)

/-- nonEmptyStr only passes nonempty strings through. -/
theorem nonEmptyStr_some {x : Option String} {f : String}
    (h : nonEmptyStr x = some f) : f ≠ "" := by
  cases x with
  | none => cases h
  | some s =>
    have h' : (if s = "" then none else some s) = some f := h
    by_cases hs : s = ""
    · rw [if_pos hs] at h'
      cases h'
    · rw [if_neg hs] at h'
      cases h'
      exact hs

/-- Every recorded faction occurrence is a nonempty string. -/
theorem mem_involvedFactions_ne_empty (ms : List Match) (pid : ℕ) :
    ∀ f ∈ involvedFactions ms pid, f ≠ "" := by
  intro f hf
  rcases List.mem_append.1 hf with hf | hf <;>
    rcases List.mem_filterMap.1 hf with ⟨m, _, hsome⟩ <;>
    exact nonEmptyStr_some hsome

/-- Claim C7: most_played_faction returns the nonempty faction string with the
most recorded occurrences for the player (side A occurrences by a_faction,
side B by b_faction), ties broken by ascending alphabetical order, and nothing
when no faction was ever recorded; Empire of Man three against one beats the
Dwarf faction, and a two-two tie goes to the alphabetically first name. -/
theorem most_played_faction_spec (ms : List Match) (pid : ℕ) :
    (most_played_faction ms pid = none ↔ involvedFactions ms pid = []) ∧
    (∀ f, most_played_faction ms pid = some f →
      f ∈ involvedFactions ms pid ∧ f ≠ "" ∧
      ∀ g ∈ involvedFactions ms pid, Better (fcount ms pid) f g) ∧
    most_played_faction exMatchesEmpire 1 = some "Empire of Man" ∧
    most_played_faction exMatchesTie 1 = some "Dwarfen Mountain Holds" := by
  refine ⟨?_, ?_, by decide, by decide⟩
  · cases hd : (involvedFactions ms pid).dedup with
    | nil =>
      simp only [most_played_faction, hd]
      constructor
      · intro _
        exact (List.dedup_eq_nil _).1 hd
      · intro _
        trivial
    | cons k ks =>
      simp only [most_played_faction, hd]
      constructor
      · intro h
        cases h
      · intro h
        rw [h] at hd
        simp at hd
  · intro f hf
    unfold most_played_faction at hf
    cases hd : (involvedFactions ms pid).dedup with
    | nil =>
      rw [hd] at hf
      cases hf
    | cons k ks =>
      rw [hd] at hf
      simp only [Option.some.injEq] at hf
      subst hf
      have hmemd : pickBest (fcount ms pid) k ks ∈ k :: ks := by
        rcases pickBest_cases (fcount ms pid) ks k with hc | hc
        · rw [hc]
          exact List.mem_cons_self k ks
        · exact List.mem_cons_of_mem k hc
      have hmem : pickBest (fcount ms pid) k ks ∈ involvedFactions ms pid := by
        rw [← List.mem_dedup, hd]
        exact hmemd
      refine ⟨hmem, mem_involvedFactions_ne_empty ms pid _ hmem, ?_⟩
      intro g hg
      have hgd : g ∈ k :: ks := by
        rw [← hd, List.mem_dedup]
        exact hg
      refine pickBest_better (fcount ms pid) ks k g ?_
      rcases List.mem_cons.1 hgd with h | h
      · exact Or.inl h
      · exact Or.inr h

/-- Witness for C7: the winning faction of the three-to-one history is a
recorded nonempty faction that beats-or-equals every recorded occurrence. -/
theorem most_played_faction_spec_witness :
    "Empire of Man" ∈ involvedFactions exMatchesEmpire 1 ∧ "Empire of Man" ≠ "" ∧
    ∀ g ∈ involvedFactions exMatchesEmpire 1,
      Better (fcount exMatchesEmpire 1) "Empire of Man" g :=
  (most_played_faction_spec exMatchesEmpire 1).2.1 "Empire of Man" (by decide)

/-- addT with the zero tally on the left. -/
theorem addT_zero_left (x : ℕ × ℕ × ℕ) : addT (0, 0, 0) x = x := by
  rcases x with ⟨a, b, c⟩
  simp [addT]

/-- addT is associative. -/
theorem addT_assoc (x y z : ℕ × ℕ × ℕ) : addT (addT x y) z = addT x (addT y z) := by
  rcases x with ⟨a, b, c⟩
  rcases y with ⟨d, e, f⟩
  rcases z with ⟨g, h, i⟩
  simp [addT, Nat.add_assoc]

/-- player_record splits over list concatenation. -/
theorem player_record_append (l1 l2 : List Match) (pid : ℕ) :
    player_record (l1 ++ l2) pid = addT (player_record l1 pid) (player_record l2 pid) := by
  induction l1 with
  | nil =>
    rw [List.nil_append]
    exact (addT_zero_left _).symm
  | cons m ms ih =>
    rw [List.cons_append]
    show addT (matchContrib pid m) (player_record (ms ++ l2) pid) = _
    rw [ih, ← addT_assoc]
    rfl

/-- A found row splits the table, and replacing it rewrites exactly that slot. -/
theorem findMatch_decomp : ∀ (ms : List Match) (mid : ℕ) (m m' : Match),
    findMatch ms mid = some m →
    ∃ l1 l2, ms = l1 ++ m :: l2 ∧ setFirst ms mid m' = l1 ++ m' :: l2
  | [], _, _, _, h => by cases h
  | x :: xs, mid, m, m', h => by
    simp only [findMatch] at h
    by_cases hx : x.id = mid
    · rw [if_pos hx] at h
      cases h
      refine ⟨[], xs, rfl, ?_⟩
      show setFirst (x :: xs) mid m' = m' :: xs
      simp only [setFirst]
      rw [if_pos hx]
    · rw [if_neg hx] at h
      rcases findMatch_decomp xs mid m m' h with ⟨l1, l2, h1, h2⟩
      refine ⟨x :: l1, l2, by rw [List.cons_append, ← h1], ?_⟩
      show setFirst (x :: xs) mid m' = x :: l1 ++ m' :: l2
      simp only [setFirst]
      rw [if_neg hx, h2]
      rfl

/-- Claim C6: resolving a pending bye match (no side B) sets the result to
a_win, stores the before and after rating equal to the recipients current
rating, records no K-factor, changes no Player row, and adds exactly one win
and nothing else to the recipients record. -/
theorem recordResult_bye_spec (upd : ℚ → ℚ → ℚ → ℕ → ℚ × ℚ) (st : LeagueState)
    (mid : ℕ) (result : String) (k : ℕ) (fa fb : Option String) (now : ℕ)
    (m : Match) (pa : Player)
    (hm : findMatch st.matches' mid = some m)
    (hpend : m.result = "pending")
    (hbye : m.player_b_id = none)
    (hpa : findPlayer st.players m.player_a_id = some pa) :
    ∃ m', recordResult upd st mid result k fa fb now =
        (RecOutcome.savedBye, { st with matches' := setFirst st.matches' mid m' }) ∧
      m'.result = "a_win" ∧
      m'.a_rating_after = some pa.rating ∧
      m'.a_rating_before = some pa.rating ∧
      m'.k_factor_used = none ∧
      (recordResult upd st mid result k fa fb now).2.players = st.players ∧
      (player_record (setFirst st.matches' mid m') m.player_a_id).1
        = (player_record st.matches' m.player_a_id).1 + 1 ∧
      (player_record (setFirst st.matches' mid m') m.player_a_id).2
        = (player_record st.matches' m.player_a_id).2 := by
  have hres : recordResult upd st mid result k fa fb now =
      (RecOutcome.savedBye,
        { st with matches' := setFirst st.matches' mid (resolvedBye m pa fa now) }) := by
    simp [recordResult, hm, hpa, hbye, hpend]
  rcases findMatch_decomp st.matches' mid m (resolvedBye m pa fa now) hm with ⟨l1, l2, h1, h2⟩
  have hcm : matchContrib m.player_a_id m = (0, 0, 0) := by
    simp [matchContrib, hbye, hpend]
  have hcm' : matchContrib m.player_a_id (resolvedBye m pa fa now) = (1, 0, 0) := by
    simp [matchContrib, resolvedBye, hbye]
  rcases hr1 : player_record l1 m.player_a_id with ⟨w1, d1, lo1⟩
  rcases hr2 : player_record l2 m.player_a_id with ⟨w2, d2, lo2⟩
  refine ⟨resolvedBye m pa fa now, hres, rfl, rfl, rfl, rfl, by rw [hres], ?_, ?_⟩
  · rw [h2, h1, player_record_append, player_record_append]
    simp only [player_record, hcm, hcm', hr1, hr2, addT]
    try omega
  · rw [h2, h1, player_record_append, player_record_append]
    simp only [player_record, hcm, hcm', hr1, hr2, addT]
    try omega

/-- Witness for C6: resolving the pending bye of byeState, whose recipient
already has one earlier win on record. -/
theorem recordResult_bye_spec_witness :
    ∃ m', recordResult idUpd byeState 1 "a_win" 40 (some "Empire of Man") none 9 =
        (RecOutcome.savedBye, { byeState with matches' := setFirst byeState.matches' 1 m' }) ∧
      m'.result = "a_win" ∧
      m'.a_rating_after = some heinrich.rating ∧
      m'.a_rating_before = some heinrich.rating ∧
      m'.k_factor_used = none ∧
      (recordResult idUpd byeState 1 "a_win" 40 (some "Empire of Man") none 9).2.players
        = byeState.players ∧
      (player_record (setFirst byeState.matches' 1 m') byeMatch.player_a_id).1
        = (player_record byeState.matches' byeMatch.player_a_id).1 + 1 ∧
      (player_record (setFirst byeState.matches' 1 m') byeMatch.player_a_id).2
        = (player_record byeState.matches' byeMatch.player_a_id).2 :=
  recordResult_bye_spec idUpd byeState 1 "a_win" 40 (some "Empire of Man") none 9
    byeMatch heinrich (by decide) (by decide) (by decide) (by decide)

/-- A successful inner scan returns an unconsumed later candidate. -/
theorem findFresh_mem (past : List (ℕ × ℕ)) (used : List ℕ) (pid : ℕ) :
    ∀ (cs : List ℕ) (c : ℕ), findFresh past used pid cs = some c → c ∈ cs ∧ c ∉ used := by
  intro cs
  induction cs with
  | nil =>
    intro c h
    cases h
  | cons x xs ih =>
    intro c h
    simp only [findFresh] at h
    by_cases hx : x ∈ used
    · rw [if_pos hx] at h
      rcases ih c h with ⟨h1, h2⟩
      exact ⟨List.mem_cons_of_mem x h1, h2⟩
    · rw [if_neg hx] at h
      by_cases hp : pairKey pid x ∈ past
      · rw [if_pos hp] at h
        rcases ih c h with ⟨h1, h2⟩
        exact ⟨List.mem_cons_of_mem x h1, h2⟩
      · rw [if_neg hp] at h
        cases h
        exact ⟨List.mem_cons_self x xs, hx⟩

/-- A successful fallback scan returns an unconsumed later candidate. -/
theorem findAny_mem (used : List ℕ) :
    ∀ (cs : List ℕ) (c : ℕ), findAny used cs = some c → c ∈ cs ∧ c ∉ used := by
  intro cs
  induction cs with
  | nil =>
    intro c h
    cases h
  | cons x xs ih =>
    intro c h
    simp only [findAny] at h
    by_cases hx : x ∈ used
    · rw [if_pos hx] at h
      rcases ih c h with ⟨h1, h2⟩
      exact ⟨List.mem_cons_of_mem x h1, h2⟩
    · rw [if_neg hx] at h
      cases h
      exact ⟨List.mem_cons_self x xs, hx⟩

/-- A failed fallback scan means every later candidate is consumed. -/
theorem findAny_none (used : List ℕ) :
    ∀ cs : List ℕ, findAny used cs = none → ∀ c ∈ cs, c ∈ used := by
  intro cs
  induction cs with
  | nil =>
    intro _ c hc
    cases hc
  | cons x xs ih =>
    intro h c hc
    simp only [findAny] at h
    by_cases hx : x ∈ used
    · rw [if_pos hx] at h
      rcases List.mem_cons.1 hc with rfl | hc
      · exact hx
      · exact ih h c hc
    · rw [if_neg hx] at h
      cases h

/-- The greedy pass over fully consumed ids emits nothing. -/
theorem pairingLoop_eq_nil (past : List (ℕ × ℕ)) :
    ∀ (ids used : List ℕ), (∀ c ∈ ids, c ∈ used) → pairingLoop past ids used = [] := by
  intro ids
  induction ids with
  | nil =>
    intro used _
    rfl
  | cons pid rest ih =>
    intro used h
    simp only [pairingLoop]
    rw [if_pos (h pid (List.mem_cons_self pid rest))]
    exact ih used fun c hc => h c (List.mem_cons_of_mem pid hc)

/-- Consuming the current player and a later opponent removes exactly that
opponent from the unconsumed remainder, up to permutation. -/
theorem consumed_perm {rest used : List ℕ} {pid opp : ℕ}
    (hpid : pid ∉ rest) (hrest : rest.Nodup) (hopp_mem : opp ∈ rest) (hopp_used : opp ∉ used) :
    List.Perm (opp :: List.filter (fun c => decide (c ∉ pid :: opp :: used)) rest)
      (List.filter (fun c => decide (c ∉ used)) rest) := by
  have h1 : List.filter (fun c => decide (c ∉ pid :: opp :: used)) rest
      = List.filter (fun c => decide (c ∉ opp :: used)) rest := by
    apply List.filter_congr
    intro c hc
    have hcp : c ≠ pid := fun he => hpid (he ▸ hc)
    by_cases h2 : c = opp <;> by_cases h3 : c ∈ used <;>
      simp [List.mem_cons, hcp, h2, h3]
  have h2 : List.filter (fun c => decide (c ∉ opp :: used)) rest
      = List.filter (fun c => decide (c ≠ opp))
          (List.filter (fun c => decide (c ∉ used)) rest) := by
    rw [List.filter_filter]
    apply List.filter_congr
    intro c hc
    by_cases h2 : c = opp <;> by_cases h3 : c ∈ used <;>
      simp [List.mem_cons, h2, h3]
  have hopp_in : opp ∈ List.filter (fun c => decide (c ∉ used)) rest :=
    List.mem_filter.2 ⟨hopp_mem, by simp [hopp_used]⟩
  have hnodup : (List.filter (fun c => decide (c ∉ used)) rest).Nodup :=
    hrest.filter _
  have herase : List.filter (fun c => decide (c ≠ opp))
      (List.filter (fun c => decide (c ∉ used)) rest)
      = (List.filter (fun c => decide (c ∉ used)) rest).erase opp := by
    rw [hnodup.erase_eq_filter]
    apply List.filter_congr
    intro c _
    by_cases h : c = opp <;> simp [h]
  rw [h1, h2, herase]
  exact (List.perm_cons_erase hopp_in).symm

/-- The players mentioned by the greedy pass are exactly the unconsumed ids. -/
theorem playersOf_pairingLoop (past : List (ℕ × ℕ)) :
    ∀ (ids used : List ℕ), ids.Nodup →
      List.Perm (playersOf (pairingLoop past ids used))
        (ids.filter fun c => decide (c ∉ used)) := by
  intro ids
  induction ids with
  | nil =>
    intro used _
    simp [pairingLoop, playersOf]
  | cons pid rest ih =>
    intro used hnd
    rcases List.nodup_cons.1 hnd with ⟨hpid, hrest⟩
    simp only [pairingLoop]
    by_cases hu : pid ∈ used
    · rw [if_pos hu]
      have hfc : List.filter (fun c => decide (c ∉ used)) (pid :: rest)
          = List.filter (fun c => decide (c ∉ used)) rest := by
        rw [List.filter_cons]
        simp [hu]
      rw [hfc]
      exact ih used hrest
    · rw [if_neg hu]
      have hfc : List.filter (fun c => decide (c ∉ used)) (pid :: rest)
          = pid :: List.filter (fun c => decide (c ∉ used)) rest := by
        rw [List.filter_cons]
        simp [hu]
      cases hf : findFresh past used pid rest with
      | some opp =>
        rcases findFresh_mem past used pid rest opp hf with ⟨hopp_mem, hopp_used⟩
        rw [hfc]
        simp only [playersOf]
        exact ((ih (pid :: opp :: used) hrest).cons opp).trans
          (consumed_perm hpid hrest hopp_mem hopp_used) |>.cons pid
      | none =>
        cases ha : findAny used rest with
        | some opp =>
          rcases findAny_mem used rest opp ha with ⟨hopp_mem, hopp_used⟩
          rw [hfc]
          simp only [playersOf]
          exact ((ih (pid :: opp :: used) hrest).cons opp).trans
            (consumed_perm hpid hrest hopp_mem hopp_used) |>.cons pid
        | none =>
          have hall := findAny_none used rest ha
          rw [hfc]
          simp only [playersOf]
          rw [pairingLoop_eq_nil past rest (pid :: used)
            fun c hc => List.mem_cons_of_mem pid (hall c hc)]
          have hfn : List.filter (fun c => decide (c ∉ used)) rest = [] := by
            rw [List.filter_eq_nil_iff]
            intro c hc
            simp [hall c hc]
          rw [hfn]
          rfl

/-- At most one bye per round: once the fallback scan fails, everything later
is already consumed and the pass emits nothing further. -/
theorem byeCount_pairingLoop_le_one (past : List (ℕ × ℕ)) :
    ∀ (ids used : List ℕ), byeCount (pairingLoop past ids used) ≤ 1 := by
  intro ids
  induction ids with
  | nil =>
    intro used
    simp [pairingLoop, byeCount]
  | cons pid rest ih =>
    intro used
    simp only [pairingLoop]
    by_cases hu : pid ∈ used
    · rw [if_pos hu]
      exact ih used
    · rw [if_neg hu]
      cases hf : findFresh past used pid rest with
      | some opp => simpa [byeCount] using ih (pid :: opp :: used)
      | none =>
        cases ha : findAny used rest with
        | some opp => simpa [byeCount] using ih (pid :: opp :: used)
        | none =>
          have hall := findAny_none used rest ha
          rw [pairingLoop_eq_nil past rest (pid :: used)
            fun c hc => List.mem_cons_of_mem pid (hall c hc)]
          simp [byeCount]

/-- Each pair contributes two mentioned players except byes, which give one. -/
theorem playersOf_length : ∀ out : List (ℕ × Option ℕ),
    (playersOf out).length + byeCount out = 2 * out.length := by
  intro out
  induction out with
  | nil => rfl
  | cons p rest ih =>
    rcases p with ⟨a, b⟩
    cases b <;> simp only [playersOf, byeCount, List.length_cons] <;> omega

/-- Every pair is a two-sided pair or a bye. -/
theorem twoCount_add_byeCount : ∀ out : List (ℕ × Option ℕ),
    twoCount out + byeCount out = out.length := by
  intro out
  induction out with
  | nil => rfl
  | cons p rest ih =>
    rcases p with ⟨a, b⟩
    cases b <;> simp only [twoCount, byeCount, List.length_cons] <;> omega

/-- The eligible pool never repeats an id when player ids are distinct. -/
theorem eligible_ids_nodup (players : List Player) (restrict_to : Option (List ℕ))
    (h : (players.map Player.id).Nodup) : (eligible_ids players restrict_to).Nodup := by
  have hsub : ((players.filter (·.active)).map Player.id).Nodup := by
    have hs : List.Sublist ((players.filter (·.active)).map Player.id)
        (players.map Player.id) :=
      (List.filter_sublist players).map Player.id
    exact h.sublist hs
  have hsort : ((List.insertionSort ratingGE (players.filter (·.active))).map Player.id).Nodup := by
    have hperm : List.Perm (List.insertionSort ratingGE (players.filter (·.active)))
        (players.filter (·.active)) := List.perm_insertionSort ratingGE _
    exact ((hperm.map Player.id).nodup_iff).2 hsub
  cases restrict_to with
  | none =>
    simp only [eligible_ids]
    exact hsort
  | some r =>
    simp only [eligible_ids]
    by_cases hr : r.isEmpty
    · rw [if_pos hr]
      exact hsort
    · rw [if_neg hr]
      exact hsort.filter _

/-- Claim C4: the ids mentioned by pairing generation are a permutation of the
eligible pool (each eligible id exactly once), an odd pool of size 2n+1 yields
exactly one bye and n two-sided pairs, an even pool yields no bye, and an
empty pool yields zero matches. -/
theorem generate_weekly_pairings_partition (players : List Player)
    (restrict_to : Option (List ℕ)) (past : List (ℕ × ℕ))
    (h : (players.map Player.id).Nodup) :
    List.Perm (playersOf (generate_weekly_pairings players restrict_to past))
      (eligible_ids players restrict_to) ∧
    byeCount (generate_weekly_pairings players restrict_to past)
      = (eligible_ids players restrict_to).length % 2 ∧
    twoCount (generate_weekly_pairings players restrict_to past)
      = (eligible_ids players restrict_to).length / 2 ∧
    (eligible_ids players restrict_to = [] →
      generate_weekly_pairings players restrict_to past = []) := by
  have hnd := eligible_ids_nodup players restrict_to h
  simp only [generate_weekly_pairings]
  by_cases hE : (eligible_ids players restrict_to).isEmpty
  · have hnil : eligible_ids players restrict_to = [] := List.isEmpty_iff.1 hE
    rw [if_pos hE, hnil]
    exact ⟨List.Perm.refl _, rfl, rfl, fun _ => rfl⟩
  · rw [if_neg hE]
    have hperm0 : List.Perm
        (playersOf (pairingLoop past (eligible_ids players restrict_to) []))
        ((eligible_ids players restrict_to).filter fun c => decide (c ∉ ([] : List ℕ))) :=
      playersOf_pairingLoop past (eligible_ids players restrict_to) [] hnd
    have hfilter : ((eligible_ids players restrict_to).filter
        fun c => decide (c ∉ ([] : List ℕ))) = eligible_ids players restrict_to := by
      apply List.filter_eq_self.2
      intro a _
      simp
    rw [hfilter] at hperm0
    have hlen : (playersOf (pairingLoop past (eligible_ids players restrict_to) [])).length
        = (eligible_ids players restrict_to).length := hperm0.length_eq
    have hplen := playersOf_length (pairingLoop past (eligible_ids players restrict_to) [])
    have hble := byeCount_pairingLoop_le_one past (eligible_ids players restrict_to) []
    have htwo := twoCount_add_byeCount (pairingLoop past (eligible_ids players restrict_to) [])
    refine ⟨hperm0, by omega, by omega, ?_⟩
    intro hnil
    exact absurd (by rw [hnil]; rfl) hE

/-- Witness for C4 on an odd five-player pool with distinct ids. -/
theorem generate_weekly_pairings_partition_witness :
    List.Perm (playersOf (generate_weekly_pairings fivePlayers none []))
      (eligible_ids fivePlayers none) ∧
    byeCount (generate_weekly_pairings fivePlayers none [])
      = (eligible_ids fivePlayers none).length % 2 ∧
    twoCount (generate_weekly_pairings fivePlayers none [])
      = (eligible_ids fivePlayers none).length / 2 ∧
    (eligible_ids fivePlayers none = [] → generate_weekly_pairings fivePlayers none [] = []) :=
  generate_weekly_pairings_partition fivePlayers none [] (by decide)

/-- Witness for C9 at a state whose attendance rows all say absent. -/
theorem empty_present_set_no_restriction_witness :
    restrictFor nobodyPresentState "01/01/2025" = none ∧
    (generatePairings nobodyPresentState "01/01/2025").1 =
      (generatePairings (stripWeekAttendance nobodyPresentState "01/01/2025") "01/01/2025").1 ∧
    (generatePairings nobodyPresentState "01/01/2025").2.matches' =
      (generatePairings (stripWeekAttendance nobodyPresentState "01/01/2025") "01/01/2025").2.matches' :=
  empty_present_set_no_restriction nobodyPresentState "01/01/2025" (by decide)

end OWL
